import Mathlib

/-!
Shallow embedding of `darshan_agg.py` (pydarshan_dask_tests): a sequential
ETL pipeline that reads darshan I/O trace files, reshapes per-module records
into keyed tabular collections, and writes them out as parquet files plus a
combined metadata table.

Pandas DataFrames are opaque payloads here (a type parameter `α`); Python
dicts are modelled by `PyDict`, an association list with Python's
insert-overwrites-in-place semantics; functions that can raise return
`Except String`; filesystem writes are modelled as a list of `FileOp` events.
-/

/-- Association-list model of a Python `dict`: assignment `d[k] = v`
overwrites the value in place when `k` is already a key and appends the pair
otherwise, so keys are unique and keep insertion order, as in Python. -/
structure PyDict (K V : Type) where
  entries : List (K × V)
deriving DecidableEq, Repr

namespace PyDict

variable {K V : Type} [DecidableEq K]

/-- The empty dict `{}`. -/
def empty : PyDict K V := ⟨[]⟩

/-- Python `k in d.keys()`. -/
def hasKey (d : PyDict K V) (k : K) : Bool :=
  d.entries.any fun p => p.1 = k

/-- Python `d[k] = v`. -/
def insert (d : PyDict K V) (k : K) (v : V) : PyDict K V :=
  if d.hasKey k then ⟨d.entries.map fun p => if p.1 = k then (k, v) else p⟩
  else ⟨d.entries ++ [(k, v)]⟩

/-- Python `d[k]`, as an option (`none` models a `KeyError`). -/
def get? (d : PyDict K V) (k : K) : Option V :=
  (d.entries.find? fun p => p.1 = k).map Prod.snd

/-- Python `list(d.keys())`. -/
def keys (d : PyDict K V) : List K := d.entries.map Prod.fst

end PyDict


/-- A value stored in a darshan job-metadata mapping (Python values of mixed
type: ints for counters and timestamps, strings for versions and blobs). -/
inductive MetaVal where
  | int (i : Int)
  | str (s : String)
deriving DecidableEq, Repr

/-- Python `str()` on a metadata value. -/
def MetaVal.pyStr : MetaVal → String
  | .int i => toString i
  | .str s => s

/-- The `report.metadata` attribute of an opened darshan report: a `job`
sub-mapping of per-field values and a sibling `exe` string. -/
structure Metadata where
  job : PyDict String MetaVal
  exe : String
deriving DecidableEq, Repr

/-- One raw DXT_POSIX record as produced by
`report.records[DXT_POSIX].to_df()`: identity fields, read/write operation
counts, and read/write segment tables (tables are opaque, type `α`). -/
structure DXT_record (α : Type) where
  id : Int
  rank : Int
  hostname : String
  write_count : Int
  read_count : Int
  read_segments : α
  write_segments : α
deriving DecidableEq, Repr

/-- Embedding of class `DXT_POSIX_metadata`: fields in declaration order. -/
structure DXT_POSIX_metadata where
  id : Int
  rank : Int
  hostname : String
  write_count : Int
  read_count : Int
deriving DecidableEq, Repr

/-- The `DXT_POSIX_metadata.__init__(self, i_id, i_rank, i_hostname, i_write,
i_read)` constructor: positional, `i_write` goes to `write_count` and
`i_read` to `read_count`. -/
def DXT_POSIX_metadata.init (i_id i_rank : Int) (i_hostname : String)
    (i_write i_read : Int) : DXT_POSIX_metadata :=
  { id := i_id, rank := i_rank, hostname := i_hostname,
    write_count := i_write, read_count := i_read }

/-- Embedding of `DXT_POSIX_metadata.to_filename`:
`"_".join([str(self.id), str(self.rank), self.hostname])`. -/
def DXT_POSIX_metadata.to_filename (m : DXT_POSIX_metadata) : String :=
  String.intercalate "_" [toString m.id, toString m.rank, m.hostname]

/-- Embedding of class `DXT_POSIX_coll`: per-record metadata list plus
read/write segment tables keyed by record id. -/
structure DXT_POSIX_coll (α : Type) where
  metadata : List DXT_POSIX_metadata
  read_segments : PyDict Int α
  write_segments : PyDict Int α
deriving DecidableEq, Repr

/-- Loop body of `DXT_POSIX_coll.__init__`: for each record, build its
`DXT_POSIX_metadata` — note the call site passes `record[read_count]` as
`i_write` and `record[write_count]` as `i_read`, mirroring the source —
append it, raise `ValueError` if the id is already a key of
`read_segments`, else store both segment tables under the id. -/
def DXT_POSIX_coll.initGo {α : Type} :
    List (DXT_record α) → DXT_POSIX_coll α → Except String (DXT_POSIX_coll α)
  | [], acc => .ok acc
  | record :: rest, acc =>
    let record_metadata := DXT_POSIX_metadata.init record.id record.rank
      record.hostname record.read_count record.write_count
    let acc1 : DXT_POSIX_coll α := { acc with metadata := acc.metadata ++ [record_metadata] }
    if acc1.read_segments.hasKey record_metadata.id then
      .error "ASSUMPTION FALSE: record IDs are not unique!"
    else
      DXT_POSIX_coll.initGo rest
        { acc1 with
          read_segments := acc1.read_segments.insert record_metadata.id record.read_segments,
          write_segments := acc1.write_segments.insert record_metadata.id record.write_segments }

/-- Embedding of `DXT_POSIX_coll.__init__(self, posix_records)`: start from empty
containers and run the record loop. -/
def DXT_POSIX_coll.init {α : Type} (posix_records : List (DXT_record α)) :
    Except String (DXT_POSIX_coll α) :=
  DXT_POSIX_coll.initGo posix_records
    { metadata := [], read_segments := PyDict.empty, write_segments := PyDict.empty }

/-- Embedding of `DXT_POSIX_coll.export_parquet(self, directory, prefix)`: one
`(directory, filename)` write per record per table,
`DXTPOSIX_<prefix>_<id>_<rank>_<hostname>_{read,write}_segments.parquet`. -/
def DXT_POSIX_coll.export_parquet {α : Type} (c : DXT_POSIX_coll α)
    (directory pfx : String) : List (String × String) :=
  (c.metadata.map fun record =>
    let filePre := "DXTPOSIX"
    let fileSuf := ".parquet"
    let fileIdPart := record.to_filename
    [(directory, filePre ++ "_" ++ pfx ++ "_" ++ fileIdPart ++ "_read_segments" ++ fileSuf),
     (directory, filePre ++ "_" ++ pfx ++ "_" ++ fileIdPart ++ "_write_segments" ++ fileSuf)]).flatten

/-- Helper for `splitext`: scan a reversed character list for the first dot;
returns (reversed extension including the dot, reversed root) when one
exists. -/
def revSplitDot : List Char → Option (List Char × List Char)
  | [] => none
  | c :: rest =>
    if c = '.' then some ([c], rest)
    else (revSplitDot rest).map fun pr => (c :: pr.1, pr.2)

/-- Model of `os.path.splitext` on a bare file name (no directory separator,
as produced by `os.listdir`): split at the last dot, unless every character
before that dot is itself a dot (so a leading-dots name like `.darshan` has
an empty extension, as in CPython's `posixpath._splitext`). -/
def splitext (p : String) : String × String :=
  match revSplitDot p.data.reverse with
  | none => (p, "")
  | some (re, rr) =>
    if rr.reverse.all (· = '.') then (p, "")
    else (String.mk rr.reverse, String.mk re.reverse)

/-- One entry of a directory listing: its name and whether
`os.path.isfile` holds for it. -/
structure DirEntry where
  name : String
  isFile : Bool
deriving DecidableEq, Repr

/-- Embedding of `collect_logfiles` after its existence/directory-ness
validation (the `os.path.exists` / `os.path.isdir` guards are filesystem
preconditions; the function here receives the listing of a validated
directory): keep regular files, then keep names whose `splitext` extension
is exactly `.darshan`. -/
def collect_logfiles (entries : List DirEntry) : List String :=
  let files := (entries.filter fun f => f.isFile).map fun f => f.name
  files.filter fun f => (splitext f).2 = ".darshan"

/-- One raw counters-only record: `record["rank"]`, `record["id"]`,
`record["counters"]`. -/
structure CntRecord (α : Type) where
  rank : Int
  id : Int
  counters : α
deriving DecidableEq, Repr

/-- Embedding of class `counters_coll`. -/
structure counters_coll (α : Type) where
  metadata : List (Int × Int)
  counters : PyDict (Int × Int) α
deriving DecidableEq, Repr

/-- Loop body of `counters_coll.__init__`: append the record's `(rank, id)`
identity to `metadata` and store its counters table under that identity
(dict assignment, so a colliding identity overwrites). -/
def counters_coll.step {α : Type} (acc : counters_coll α) (record : CntRecord α) :
    counters_coll α :=
  let record_metadata := (record.rank, record.id)
  { metadata := acc.metadata ++ [record_metadata],
    counters := acc.counters.insert record_metadata record.counters }

/-- Embedding of `counters_coll.__init__(self, records)`: one pass over the records. -/
def counters_coll.init {α : Type} (records : List (CntRecord α)) : counters_coll α :=
  records.foldl counters_coll.step { metadata := [], counters := PyDict.empty }

/-- Embedding of `counters_coll._file_fillers(self, module_name)`. -/
def counters_coll.file_fillers (module_name : String) : String × String :=
  (module_name ++ "_", ".parquet")

/-- Embedding of `counters_coll.export_parquet(self, module_name, directory, prefix)`:
one `(directory, filename)` write per stored identity,
`<module>_<prefix>_<rank>_<id>_counters.parquet`. -/
def counters_coll.export_parquet {α : Type} (c : counters_coll α)
    (module_name directory pfx : String) : List (String × String) :=
  let (filePre, fileSuf) := counters_coll.file_fillers module_name
  c.metadata.map fun record =>
    let fileIdPart := String.intercalate "_" [toString record.1, toString record.2]
    (directory, filePre ++ pfx ++ "_" ++ fileIdPart ++ "_counters" ++ fileSuf)

/-- One raw counters+fcounters record: adds `record["fcounters"]`. -/
structure FCntRecord (α : Type) where
  rank : Int
  id : Int
  counters : α
  fcounters : α
deriving DecidableEq, Repr

/-- Embedding of class `fcounters_coll` (extends `counters_coll` with a
float-counters table per identity). -/
structure fcounters_coll (α : Type) where
  metadata : List (Int × Int)
  counters : PyDict (Int × Int) α
  fcounters : PyDict (Int × Int) α
deriving DecidableEq, Repr

/-- Loop body of `fcounters_coll.__init__`: store both the counters and
fcounters tables under `(rank, id)` (dict assignment, so a colliding
identity overwrites both tables). -/
def fcounters_coll.step {α : Type} (acc : fcounters_coll α) (record : FCntRecord α) :
    fcounters_coll α :=
  let record_metadata := (record.rank, record.id)
  { metadata := acc.metadata ++ [record_metadata],
    counters := acc.counters.insert record_metadata record.counters,
    fcounters := acc.fcounters.insert record_metadata record.fcounters }

/-- Embedding of `fcounters_coll.__init__(self, records)`: a single loop, not the
superclass loop plus a second pass, as in the source. -/
def fcounters_coll.init {α : Type} (records : List (FCntRecord α)) : fcounters_coll α :=
  records.foldl fcounters_coll.step
    { metadata := [], counters := PyDict.empty, fcounters := PyDict.empty }

/-- Embedding of `fcounters_coll.export_parquet(self, module_name, directory, prefix)`:
the superclass counters files first, then one
`<module>_<prefix>_<rank>_<id>_fcounters.parquet` file per identity. -/
def fcounters_coll.export_parquet {α : Type} (c : fcounters_coll α)
    (module_name directory pfx : String) : List (String × String) :=
  let asCounters : counters_coll α := { metadata := c.metadata, counters := c.counters }
  let (filePre, fileSuf) := counters_coll.file_fillers module_name
  asCounters.export_parquet module_name directory pfx ++
    c.metadata.map fun record =>
      let fileIdPart := String.intercalate "_" [toString record.1, toString record.2]
      (directory, filePre ++ pfx ++ "_" ++ fileIdPart ++ "_fcounters" ++ fileSuf)

/-- One value of the `output` dict built by `read_log`: metadata, module
list, one of the four typed collections, the closed report handle, or the
`loaded_modules` list. -/
inductive OutputVal (α : Type) where
  | meta (m : Metadata)
  | modules (l : List String)
  | posix (c : fcounters_coll α)
  | lustre (c : counters_coll α)
  | stdio (c : fcounters_coll α)
  | dxt (c : DXT_POSIX_coll α)
  | report
  | loadedModules (l : List String)
deriving DecidableEq, Repr

/-- Contents of one trace file as surfaced by the vendor library: the
`report.metadata` attribute, the module names present, and the raw record
lists `read_log` would pull for each module it loads. MPI-IO and DXT_MPIIO
records are read and printed by `read_log` but never stored, so they are
not needed here. -/
structure ReportInput (α : Type) where
  metadata : Metadata
  modules : List String
  posixRecords : List (FCntRecord α)
  lustreRecords : List (CntRecord α)
  stdioRecords : List (FCntRecord α)
  dxtRecords : List (DXT_record α)
deriving DecidableEq, Repr

/-- Tail of `read_log`: `output["report"] = report` then
`output["loaded_modules"] = loaded_modules`. -/
def read_log_finish {α : Type} (o : PyDict String (OutputVal α))
    (loaded_modules : List String) : PyDict String (OutputVal α) :=
  (o.insert "report" OutputVal.report).insert "loaded_modules"
    (OutputVal.loadedModules loaded_modules)

/-- One `if <module> in modules: load; output[<key>] = <coll>;
loaded_modules.append(<key>)` block of `read_log`, on the
(output, loaded_modules) state. -/
def read_log_mod_step {α : Type} (cond : Bool) (k : String) (v : OutputVal α)
    (s : PyDict String (OutputVal α) × List String) :
    PyDict String (OutputVal α) × List String :=
  if cond then (s.1.insert k v, s.2 ++ [k]) else s

/-- Embedding of `read_log` after its path validation (`os.path.exists` /
`os.path.isfile` are filesystem preconditions): store `metadata` and
`modules`, then load POSIX, LUSTRE, STDIO and DXT_POSIX into typed
collections when present, appending each stored key to `loaded_modules`.
The HEATMAP branch is commented out in the source, the unexpected-module
check and the MPI-IO / DXT_MPIIO branches only print, so none of them touch
`output`; `DXT_POSIX_coll` construction can raise, which propagates. -/
def read_log {α : Type} (input : ReportInput α) :
    Except String (PyDict String (OutputVal α)) :=
  let o1 := (PyDict.empty.insert "metadata" (OutputVal.meta input.metadata))
  let s2 := (o1.insert "modules" (OutputVal.modules input.modules), ([] : List String))
  let s3 := read_log_mod_step (input.modules.contains "POSIX") "POSIX_coll"
    (OutputVal.posix (fcounters_coll.init input.posixRecords)) s2
  let s4 := read_log_mod_step (input.modules.contains "LUSTRE") "LUSTRE_coll"
    (OutputVal.lustre (counters_coll.init input.lustreRecords)) s3
  let s5 := read_log_mod_step (input.modules.contains "STDIO") "STDIO_coll"
    (OutputVal.stdio (fcounters_coll.init input.stdioRecords)) s4
  if input.modules.contains "DXT_POSIX" then
    match DXT_POSIX_coll.init input.dxtRecords with
    | .error e => .error e
    | .ok c =>
      let s6 := read_log_mod_step true "DXT_POSIX_coll_object" (OutputVal.dxt c) s5
      .ok (read_log_finish s6.1 s6.2)
  else .ok (read_log_finish s5.1 s5.2)

/-- Column names of the metadata dataframe, from `mdf_header`. -/
def mdf_header : List String :=
  ["run_time", "start_time_nsec", "start_time_sec", "end_time_nsec", "end_time_sec",
   "jobid", "uid", "log_ver", "metadata", "nprocs", "exe"]

/-- Row values for one report: `report['metadata']['job'][val]` for each
column except the last, then `report['metadata']['exe']`; `none` models a
`KeyError` on a missing job field. -/
def report_job_values (md : Metadata) : Option (List MetaVal) :=
  (mdf_header.dropLast.mapM fun val => md.job.get? val).map
    fun values => values ++ [MetaVal.str md.exe]

/-- Loop of `move_metadata_into_dataframe` over `list(report_data.keys())`:
gather each report's row values, raise `ValueError` if the name is already
a row of the dataframe, else insert the row at that name. -/
def move_metadata_go {α : Type}
    (report_data : PyDict String (PyDict String (OutputVal α))) :
    List String → PyDict String (List MetaVal) →
      Except String (PyDict String (List MetaVal))
  | [], metadata_df => .ok metadata_df
  | report_name :: rest, metadata_df =>
    match report_data.get? report_name with
    | none => .error "KeyError"
    | some report =>
      match report.get? "metadata" with
      | some (OutputVal.meta md) =>
        match report_job_values md with
        | none => .error "KeyError"
        | some values =>
          if metadata_df.hasKey report_name then
            .error ("The name " ++ report_name ++
              " is not unique -- attempted to insert a row into the metadata df into a location that already exists!")
          else
            move_metadata_go report_data rest (metadata_df.insert report_name values)
      | _ => .error "KeyError"

/-- Embedding of `move_metadata_into_dataframe`: the dataframe is modelled
as a `PyDict` from row index (the generated name) to the row's values in
`mdf_header` column order. -/
def move_metadata_into_dataframe {α : Type}
    (report_data : PyDict String (PyDict String (OutputVal α))) :
    Except String (PyDict String (List MetaVal)) :=
  move_metadata_go report_data report_data.keys PyDict.empty

/-- Embedding of `generate_name_for_report`:
`str(job['uid']) + "_" + str(job['jobid'])`. -/
def generate_name_for_report {α : Type} (report : PyDict String (OutputVal α)) :
    Except String String :=
  match report.get? "metadata" with
  | some (OutputVal.meta md) =>
    match md.job.get? "uid", md.job.get? "jobid" with
    | some u, some j => .ok (String.intercalate "_" [u.pyStr, j.pyStr])
    | _, _ => .error "KeyError"
  | _ => .error "KeyError"

/-- A filesystem effect of the Archive Writer: creating the output
directory, or writing one parquet file (directory, file name). -/
inductive FileOp where
  | mkdir (path : String)
  | write (directory : String) (filename : String)
deriving DecidableEq, Repr

/-- State of the output path on disk when `write_to_parquet` runs. -/
inductive PathState where
  | isDir
  | existsNonDir
  | absent
deriving DecidableEq, Repr

/-- Dispatch of `report[module_name].export_parquet(output_dir, name)` on a
dict value: the three per-module subclasses bind their module name
(`POSIX_coll`/`STDIO_coll` wrap `fcounters_coll`, `LUSTRE_coll` wraps
`counters_coll`), `DXT_POSIX_coll` exports directly; any other value has no
`export_parquet` method (`none` models the `AttributeError`). -/
def OutputVal.exportFiles {α : Type} :
    OutputVal α → String → String → Option (List (String × String))
  | .posix c, directory, pfx => some (c.export_parquet "POSIX" directory pfx)
  | .lustre c, directory, pfx => some (c.export_parquet "LUSTRE" directory pfx)
  | .stdio c, directory, pfx => some (c.export_parquet "STDIO" directory pfx)
  | .dxt c, directory, pfx => some (c.export_parquet directory pfx)
  | _, _, _ => none

/-- Inner loop of `write_to_parquet`: export each loaded module of one
report with the output directory and the report's name as batch prefix. -/
def export_modules_go {α : Type} (report : PyDict String (OutputVal α))
    (output_dir report_name : String) : List String → Except String (List FileOp)
  | [] => .ok []
  | module_name :: rest =>
    match report.get? module_name with
    | none => .error "KeyError"
    | some v =>
      match v.exportFiles output_dir report_name with
      | none => .error "AttributeError: export_parquet"
      | some files =>
        match export_modules_go report output_dir report_name rest with
        | .error e => .error e
        | .ok ops => .ok (files.map (fun f => FileOp.write f.1 f.2) ++ ops)

/-- Outer loop of `write_to_parquet` over `list(report_data.keys())`: fetch
each report and its `loaded_modules` list, then export every module. -/
def export_reports_go {α : Type}
    (report_data : PyDict String (PyDict String (OutputVal α)))
    (output_dir : String) : List String → Except String (List FileOp)
  | [] => .ok []
  | report_name :: rest =>
    match report_data.get? report_name with
    | none => .error "KeyError"
    | some report =>
      match report.get? "loaded_modules" with
      | some (OutputVal.loadedModules loaded_modules) =>
        match export_modules_go report output_dir report_name loaded_modules with
        | .error e => .error e
        | .ok ops =>
          match export_reports_go report_data output_dir rest with
          | .error e => .error e
          | .ok more => .ok (ops ++ more)
      | _ => .error "KeyError"

/-- Embedding of `write_to_parquet`: a non-directory output path aborts
before any effect; an absent path is created with `os.mkdir`; then the
metadata dataframe is written to the fixed name `metadata.parquet` in the
output directory and every report's loaded modules are exported. The
returned list records the filesystem effects in program order. -/
def write_to_parquet {α : Type}
    (report_data : PyDict String (PyDict String (OutputVal α)))
    (metadata_df : PyDict String (List MetaVal)) (output_dir : String)
    (st : PathState) : Except String (List FileOp) :=
  match st with
  | .existsNonDir =>
    .error ("Provided directory " ++ output_dir ++
      " exists and is not a directory. Aborting.")
  | .isDir =>
    match export_reports_go report_data output_dir report_data.keys with
    | .error e => .error e
    | .ok ops => .ok ([FileOp.write output_dir "metadata.parquet"] ++ ops)
  | .absent =>
    match export_reports_go report_data output_dir report_data.keys with
    | .error e => .error e
    | .ok ops =>
      .ok ([FileOp.mkdir output_dir, FileOp.write output_dir "metadata.parquet"] ++ ops)

/-- Per-file loop of `aggregate_darshan`: read each trace file, generate its
name from uid and jobid, and assign the report into the batch dict (a plain
dict assignment, as in the source). -/
def collect_reports_go {α : Type} :
    List (ReportInput α) → PyDict String (PyDict String (OutputVal α)) →
      Except String (PyDict String (PyDict String (OutputVal α)))
  | [], collected => .ok collected
  | f :: rest, collected =>
    match read_log f with
    | .error e => .error e
    | .ok tmp_report_data =>
      match generate_name_for_report tmp_report_data with
      | .error e => .error e
      | .ok tmp_name => collect_reports_go rest (collected.insert tmp_name tmp_report_data)

/-- Embedding of `aggregate_darshan` downstream of the directory scan:
`files` is the per-file content of the `.darshan` files found by
`collect_logfiles`, in scan order. Reads every file into the batch dict,
builds the combined metadata dataframe, and writes everything out. -/
def aggregate_darshan {α : Type} (files : List (ReportInput α))
    (output_loc : String) (st : PathState) :
    Except String (PyDict String (List MetaVal) × List FileOp) :=
  match collect_reports_go files PyDict.empty with
  | .error e => .error e
  | .ok collected_report_data =>
    match move_metadata_into_dataframe collected_report_data with
    | .error e => .error e
    | .ok metadata_df =>
      match write_to_parquet collected_report_data metadata_df output_loc st with
      | .error e => .error e
      | .ok ops => .ok (metadata_df, ops)

/-- Sample job sub-mapping holding every column of `mdf_header` except
`exe`, used by concrete instances below. -/
def sampleJob : PyDict String MetaVal :=
  ⟨[("run_time", MetaVal.int 10), ("start_time_nsec", MetaVal.int 1),
    ("start_time_sec", MetaVal.int 2), ("end_time_nsec", MetaVal.int 3),
    ("end_time_sec", MetaVal.int 4), ("jobid", MetaVal.int 42),
    ("uid", MetaVal.int 1), ("log_ver", MetaVal.str "3.41"),
    ("metadata", MetaVal.str "lib_ver=3.4.4"), ("nprocs", MetaVal.int 8)]⟩

/-- Sample trace-file content: one LUSTRE record with rank 0 and id 7, and
an executable string telling instances apart. -/
def sampleInput (exe : String) : ReportInput Nat :=
  { metadata := { job := sampleJob, exe := exe },
    modules := ["LUSTRE"],
    posixRecords := [], lustreRecords := [⟨0, 7, 5⟩],
    stdioRecords := [], dxtRecords := [] }

/-- Sample trace-file content whose only module is DXT_POSIX, with one
detailed-segment record. -/
def sampleDxtInput : ReportInput Nat :=
  { metadata := { job := sampleJob, exe := "ior" },
    modules := ["DXT_POSIX"],
    posixRecords := [], lustreRecords := [],
    stdioRecords := [], dxtRecords := [⟨1, 0, "h", 5, 7, 10, 20⟩] }


namespace PyDict

variable {K V : Type} [DecidableEq K]

theorem fst_overwrite (k : K) (v : V) (p : K × V) :
    (if p.1 = k then (k, v) else p).1 = p.1 := by
  by_cases hp : p.1 = k <;> simp [hp]

theorem find?_overwrite_self (l : List (K × V)) (k : K) (v : V)
    (h : (l.any fun p => p.1 = k) = true) :
    ((l.map fun p => if p.1 = k then (k, v) else p).find? fun p => decide (p.1 = k))
      = some (k, v) := by
  induction l with
  | nil => simp at h
  | cons p rest ih =>
    by_cases hp : p.1 = k
    · simp only [List.map_cons, if_pos hp]
      rw [List.find?_cons_of_pos _ (by simp)]
    · simp only [List.any_cons, Bool.or_eq_true, decide_eq_true_eq] at h
      rcases h with h | h
      · exact absurd h hp
      · simp only [List.map_cons, if_neg hp]
        rw [List.find?_cons_of_neg _ (by simpa using hp)]
        exact ih h

theorem find?_overwrite_ne (l : List (K × V)) (k k' : K) (v : V) (h : k' ≠ k) :
    ((l.map fun p => if p.1 = k then (k, v) else p).find? fun p => decide (p.1 = k'))
      = l.find? fun p => decide (p.1 = k') := by
  induction l with
  | nil => rfl
  | cons p rest ih =>
    by_cases hp : p.1 = k
    · simp only [List.map_cons, if_pos hp]
      rw [List.find?_cons_of_neg _ (by simpa using Ne.symm h),
        List.find?_cons_of_neg _ (by simpa [hp] using Ne.symm h)]
      exact ih
    · simp only [List.map_cons, if_neg hp]
      by_cases hq : p.1 = k'
      · rw [List.find?_cons_of_pos _ (by simpa using hq),
          List.find?_cons_of_pos _ (by simpa using hq)]
      · rw [List.find?_cons_of_neg _ (by simpa using hq),
          List.find?_cons_of_neg _ (by simpa using hq)]
        exact ih

theorem get?_eq_none_of_not_hasKey (d : PyDict K V) (k : K)
    (h : d.hasKey k = false) : d.get? k = none := by
  unfold hasKey at h
  unfold get?
  rw [Option.map_eq_none', List.find?_eq_none]
  intro p hp hc
  have hcontra : (d.entries.any fun p => decide (p.1 = k)) = true :=
    List.any_eq_true.mpr ⟨p, hp, by simpa using hc⟩
  rw [h] at hcontra
  exact Bool.false_ne_true hcontra

theorem get?_insert_self (d : PyDict K V) (k : K) (v : V) :
    (d.insert k v).get? k = some v := by
  unfold insert
  by_cases h : d.hasKey k
  · simp only [h, if_true, get?]
    rw [find?_overwrite_self d.entries k v h]
    rfl
  · simp only [Bool.not_eq_true] at h
    simp only [h, Bool.false_eq_true, if_false, get?, List.find?_append]
    have hn : (d.entries.find? fun p => decide (p.1 = k)) = none := by
      have := get?_eq_none_of_not_hasKey d k h
      unfold get? at this
      simpa [Option.map_eq_none'] using this
    rw [hn]
    simp [List.find?]

theorem get?_insert_ne (d : PyDict K V) (k k' : K) (v : V)
    (h : k' ≠ k) : (d.insert k v).get? k' = d.get? k' := by
  unfold insert
  by_cases hk : d.hasKey k
  · simp only [hk, if_true, get?]
    rw [find?_overwrite_ne d.entries k k' v h]
  · simp only [Bool.not_eq_true] at hk
    simp only [hk, Bool.false_eq_true, if_false, get?, List.find?_append]
    have h2 : decide ((k, v).1 = k') = false := by
      simp only [decide_eq_false_iff_not]
      exact Ne.symm h
    cases hfind : d.entries.find? fun p => decide (p.1 = k') with
    | some p => simp [hfind]
    | none => simp [hfind, List.find?, h2]

theorem hasKey_insert (d : PyDict K V) (k k' : K) (v : V) :
    (d.insert k v).hasKey k' = (d.hasKey k' || decide (k' = k)) := by
  unfold insert
  by_cases h : d.hasKey k
  · simp only [h, if_true]
    unfold hasKey
    simp only [List.any_map]
    have he : ((fun p : K × V => decide (p.1 = k')) ∘ fun p => if p.1 = k then (k, v) else p)
        = fun p : K × V => decide (p.1 = k') := by
      funext p
      simp [Function.comp, fst_overwrite]
    rw [he]
    by_cases hkk : k' = k
    · subst hkk
      unfold hasKey at h
      simp [h]
    · simp [hasKey, hkk]
  · simp only [Bool.not_eq_true] at h
    simp only [h, Bool.false_eq_true, if_false]
    unfold hasKey
    simp only [List.any_append, List.any_cons, List.any_nil]
    unfold hasKey at h
    by_cases hkk : k' = k
    · subst hkk
      simp
    · simp [hkk, Ne.symm hkk]

theorem keys_insert (d : PyDict K V) (k : K) (v : V) :
    (d.insert k v).keys = if d.hasKey k then d.keys else d.keys ++ [k] := by
  unfold insert keys
  by_cases h : d.hasKey k
  · simp only [h, if_true, List.map_map]
    congr 1
    funext p
    exact fst_overwrite k v p
  · simp only [Bool.not_eq_true] at h
    simp [h]

theorem get?_isSome_iff_hasKey (d : PyDict K V) (k : K) :
    (d.get? k).isSome = d.hasKey k := by
  unfold get? hasKey
  induction d.entries with
  | nil => rfl
  | cons p rest ih =>
    by_cases hp : p.1 = k
    · rw [List.find?_cons_of_pos _ (by simpa using hp)]
      simp [hp]
    · rw [List.find?_cons_of_neg _ (by simpa using hp)]
      simp only [List.any_cons, hp, decide_False, Bool.false_or]
      exact ih

end PyDict

namespace PyDict

variable {K V : Type} [DecidableEq K]

theorem get?_empty (k : K) : (empty : PyDict K V).get? k = none := rfl

theorem hasKey_iff_mem_keys (d : PyDict K V) (k : K) :
    d.hasKey k = true ↔ k ∈ d.keys := by
  unfold hasKey keys
  rw [List.any_eq_true]
  constructor
  · rintro ⟨p, hp, hpe⟩
    exact List.mem_map.mpr ⟨p, hp, by simpa using hpe⟩
  · intro hk
    obtain ⟨p, hp, hpk⟩ := List.mem_map.mp hk
    exact ⟨p, hp, by simpa using hpk⟩

end PyDict

theorem DXT_initGo_metadata {α : Type} (records : List (DXT_record α)) :
    ∀ (acc c : DXT_POSIX_coll α),
      DXT_POSIX_coll.initGo records acc = .ok c →
      c.metadata = acc.metadata ++ records.map (fun r =>
        DXT_POSIX_metadata.init r.id r.rank r.hostname r.read_count r.write_count) := by
  induction records with
  | nil =>
    intro acc c h
    simp only [DXT_POSIX_coll.initGo, Except.ok.injEq] at h
    subst h
    simp
  | cons record rest ih =>
    intro acc c h
    simp only [DXT_POSIX_coll.initGo] at h
    split at h
    · simp at h
    · have := ih _ _ h
      simpa [List.append_assoc] using this

theorem DXT_initGo_ok {α : Type} (records : List (DXT_record α)) :
    ∀ (acc : DXT_POSIX_coll α),
      (records.map DXT_record.id).Nodup →
      (∀ r ∈ records, acc.read_segments.hasKey r.id = false) →
      ∃ c, DXT_POSIX_coll.initGo records acc = .ok c ∧
        (∀ r ∈ records,
          c.read_segments.get? r.id = some r.read_segments ∧
          c.write_segments.get? r.id = some r.write_segments) ∧
        (∀ k, k ∉ records.map DXT_record.id →
          c.read_segments.get? k = acc.read_segments.get? k ∧
          c.write_segments.get? k = acc.write_segments.get? k) := by
  induction records with
  | nil =>
    intro acc _ _
    exact ⟨acc, rfl, by simp, fun k _ => ⟨rfl, rfl⟩⟩
  | cons record rest ih =>
    intro acc hnd hfresh
    simp only [List.map_cons, List.nodup_cons] at hnd
    obtain ⟨hnotin, hndr⟩ := hnd
    have hkey : acc.read_segments.hasKey record.id = false :=
      hfresh record (List.mem_cons_self _ _)
    have hstep : DXT_POSIX_coll.initGo (record :: rest) acc =
        DXT_POSIX_coll.initGo rest
          { metadata := acc.metadata ++ [DXT_POSIX_metadata.init record.id record.rank
              record.hostname record.read_count record.write_count],
            read_segments := acc.read_segments.insert record.id record.read_segments,
            write_segments := acc.write_segments.insert record.id record.write_segments } := by
      simp only [DXT_POSIX_coll.initGo]
      rw [if_neg (by simp [DXT_POSIX_metadata.init, hkey])]
      rfl
    have hfresh2 : ∀ r ∈ rest,
        (acc.read_segments.insert record.id record.read_segments).hasKey r.id = false := by
      intro r hr
      rw [PyDict.hasKey_insert]
      have h1 : acc.read_segments.hasKey r.id = false :=
        hfresh r (List.mem_cons_of_mem _ hr)
      have h2 : r.id ≠ record.id := by
        intro hc
        exact hnotin (hc ▸ List.mem_map.mpr ⟨r, hr, rfl⟩)
      simp [h1, h2]
    obtain ⟨c, hok, hmem, hframe⟩ :=
      ih { metadata := acc.metadata ++ [DXT_POSIX_metadata.init record.id record.rank
              record.hostname record.read_count record.write_count],
           read_segments := acc.read_segments.insert record.id record.read_segments,
           write_segments := acc.write_segments.insert record.id record.write_segments }
        hndr hfresh2
    refine ⟨c, hstep.trans hok, ?_, ?_⟩
    · intro r hr
      rcases List.mem_cons.mp hr with hr | hr
      · subst hr
        have := hframe r.id hnotin
        rw [this.1, this.2]
        constructor
        · exact PyDict.get?_insert_self _ _ _
        · exact PyDict.get?_insert_self _ _ _
      · exact hmem r hr
    · intro k hk
      simp only [List.map_cons, List.mem_cons, not_or] at hk
      obtain ⟨hk1, hk2⟩ := hk
      have := hframe k hk2
      rw [this.1, this.2]
      constructor
      · exact PyDict.get?_insert_ne _ _ _ _ hk1
      · exact PyDict.get?_insert_ne _ _ _ _ hk1

theorem DXT_initGo_error {α : Type} (records : List (DXT_record α)) :
    ∀ (acc : DXT_POSIX_coll α),
      (¬ (records.map DXT_record.id).Nodup ∨
        ∃ r ∈ records, acc.read_segments.hasKey r.id = true) →
      DXT_POSIX_coll.initGo records acc =
        .error "ASSUMPTION FALSE: record IDs are not unique!" := by
  induction records with
  | nil =>
    intro acc h
    rcases h with h | ⟨r, hr, -⟩
    · exact absurd (by simp : (([] : List (DXT_record α)).map DXT_record.id).Nodup) h
    · simp at hr
  | cons record rest ih =>
    intro acc h
    by_cases hkey : acc.read_segments.hasKey record.id = true
    · simp only [DXT_POSIX_coll.initGo]
      rw [if_pos (by simp [DXT_POSIX_metadata.init, hkey])]
    · have hkey' : acc.read_segments.hasKey record.id = false := by
        simpa using hkey
      have hstep : DXT_POSIX_coll.initGo (record :: rest) acc =
          DXT_POSIX_coll.initGo rest
            { metadata := acc.metadata ++ [DXT_POSIX_metadata.init record.id record.rank
                record.hostname record.read_count record.write_count],
              read_segments := acc.read_segments.insert record.id record.read_segments,
              write_segments := acc.write_segments.insert record.id record.write_segments } := by
        simp only [DXT_POSIX_coll.initGo]
        rw [if_neg (by simp [DXT_POSIX_metadata.init, hkey'])]
        rfl
      rw [hstep]
      apply ih
      rcases h with h | ⟨r, hr, hkr⟩
      · rw [List.map_cons, List.nodup_cons] at h
        by_cases hmem : record.id ∈ rest.map DXT_record.id
        · obtain ⟨r, hr, hrid⟩ := List.mem_map.mp hmem
          refine Or.inr ⟨r, hr, ?_⟩
          rw [PyDict.hasKey_insert]
          simp [hrid]
        · refine Or.inl fun hc => h ⟨hmem, hc⟩
      · rcases List.mem_cons.mp hr with hre | hre
        · exact absurd (hre ▸ hkr) (by simpa using hkey')
        · refine Or.inr ⟨r, hre, ?_⟩
          rw [PyDict.hasKey_insert]
          simp [hkr]

/-- Claim C3: for every list of detailed-segment records whose `id` values are
pairwise distinct, `DXT_POSIX_coll` construction succeeds and for each
record the read/write segment tables stored under its `id` equal the
record's input tables; for every list containing two records with the same
`id`, construction raises the fatal uniqueness `ValueError`. -/
theorem C3_dxt_segment_tables {α : Type} (records : List (DXT_record α)) :
    ((records.map DXT_record.id).Nodup →
      ∃ c, DXT_POSIX_coll.init records = .ok c ∧
        ∀ r ∈ records,
          c.read_segments.get? r.id = some r.read_segments ∧
          c.write_segments.get? r.id = some r.write_segments) ∧
    (¬ (records.map DXT_record.id).Nodup →
      DXT_POSIX_coll.init records =
        .error "ASSUMPTION FALSE: record IDs are not unique!") := by
  constructor
  · intro hnd
    obtain ⟨c, hok, hmem, -⟩ := DXT_initGo_ok records
      { metadata := [], read_segments := PyDict.empty, write_segments := PyDict.empty }
      hnd (fun r _ => rfl)
    exact ⟨c, hok, hmem⟩
  · intro hnd
    exact DXT_initGo_error records
      { metadata := [], read_segments := PyDict.empty, write_segments := PyDict.empty }
      (Or.inl hnd)

/-- Witness for C3 at concrete inputs: a singleton list has distinct ids and
builds successfully; a two-record list sharing id 1 raises. -/
theorem C3_witness :
    (∃ c, DXT_POSIX_coll.init ([⟨1, 0, "h", 5, 7, 10, 20⟩] : List (DXT_record Nat)) = .ok c ∧
      ∀ r ∈ ([⟨1, 0, "h", 5, 7, 10, 20⟩] : List (DXT_record Nat)),
        c.read_segments.get? r.id = some r.read_segments ∧
        c.write_segments.get? r.id = some r.write_segments) ∧
    DXT_POSIX_coll.init
        ([⟨1, 0, "h", 5, 7, 10, 20⟩, ⟨1, 2, "g", 0, 0, 30, 40⟩] : List (DXT_record Nat)) =
      .error "ASSUMPTION FALSE: record IDs are not unique!" :=
  ⟨(C3_dxt_segment_tables _).1 (by decide), (C3_dxt_segment_tables _).2 (by decide)⟩

/-- Claim C9: for every detailed-segment record, the `DXT_POSIX_metadata` object
constructed for it stores the record's `read_count` in its `write_count`
field and the record's `write_count` in its `read_count` field (the
constructor call passes the two in swapped order); `id`, `rank`, `hostname`
and hence the exported file names are unaffected by the swap. -/
theorem C9_count_fields_swapped {α : Type} (records : List (DXT_record α))
    (c : DXT_POSIX_coll α) (h : DXT_POSIX_coll.init records = .ok c) :
    c.metadata = records.map (fun r =>
      { id := r.id, rank := r.rank, hostname := r.hostname,
        write_count := r.read_count, read_count := r.write_count }) ∧
    ∀ directory pfx, c.export_parquet directory pfx =
      (records.map fun r =>
        [(directory, "DXTPOSIX" ++ "_" ++ pfx ++ "_" ++
            String.intercalate "_" [toString r.id, toString r.rank, r.hostname] ++
            "_read_segments" ++ ".parquet"),
         (directory, "DXTPOSIX" ++ "_" ++ pfx ++ "_" ++
            String.intercalate "_" [toString r.id, toString r.rank, r.hostname] ++
            "_write_segments" ++ ".parquet")]).flatten := by
  have hmeta := DXT_initGo_metadata records _ c h
  simp only [List.nil_append] at hmeta
  constructor
  · rw [hmeta]
    rfl
  · intro directory pfx
    simp only [DXT_POSIX_coll.export_parquet, hmeta, List.map_map]
    rfl

/-- Witness for C9 at a concrete record with read_count 7 and
write_count 5: the stored metadata object carries write_count 7 and
read_count 5, and file names use only id, rank and hostname. -/
theorem C9_witness :
    ((⟨[⟨1, 0, "h", 7, 5⟩], ⟨[(1, 10)]⟩, ⟨[(1, 20)]⟩⟩ : DXT_POSIX_coll Nat).metadata =
      [⟨1, 0, "h", 7, 5⟩]) ∧
    (⟨[⟨1, 0, "h", 7, 5⟩], ⟨[(1, 10)]⟩, ⟨[(1, 20)]⟩⟩ : DXT_POSIX_coll Nat).export_parquet
        "out" "u1_42" =
      [("out", "DXTPOSIX_u1_42_1_0_h_read_segments.parquet"),
       ("out", "DXTPOSIX_u1_42_1_0_h_write_segments.parquet")] := by
  have h := C9_count_fields_swapped ([⟨1, 0, "h", 5, 7, 10, 20⟩] : List (DXT_record Nat))
    ⟨[⟨1, 0, "h", 7, 5⟩], ⟨[(1, 10)]⟩, ⟨[(1, 20)]⟩⟩ rfl
  exact ⟨h.1.trans (by decide), (h.2 "out" "u1_42").trans (by decide)⟩

theorem counters_foldl_frame {α : Type} (records : List (CntRecord α)) :
    ∀ (acc : counters_coll α) (i : Int × Int),
      (∀ r ∈ records, (r.rank, r.id) ≠ i) →
      (records.foldl counters_coll.step acc).counters.get? i = acc.counters.get? i := by
  induction records with
  | nil => intro acc i _; rfl
  | cons r rest ih =>
    intro acc i h
    rw [List.foldl_cons, ih _ i (fun x hx => h x (List.mem_cons_of_mem _ hx))]
    exact PyDict.get?_insert_ne _ _ _ _ (Ne.symm (h r (List.mem_cons_self _ _)))

theorem fcounters_foldl_frame {α : Type} (records : List (FCntRecord α)) :
    ∀ (acc : fcounters_coll α) (i : Int × Int),
      (∀ r ∈ records, (r.rank, r.id) ≠ i) →
      (records.foldl fcounters_coll.step acc).counters.get? i = acc.counters.get? i ∧
      (records.foldl fcounters_coll.step acc).fcounters.get? i = acc.fcounters.get? i := by
  induction records with
  | nil => intro acc i _; exact ⟨rfl, rfl⟩
  | cons r rest ih =>
    intro acc i h
    obtain ⟨h1, h2⟩ := ih (fcounters_coll.step acc r) i
      (fun x hx => h x (List.mem_cons_of_mem _ hx))
    rw [List.foldl_cons, h1, h2]
    have hne : i ≠ (r.rank, r.id) := Ne.symm (h r (List.mem_cons_self _ _))
    exact ⟨PyDict.get?_insert_ne _ _ _ _ hne, PyDict.get?_insert_ne _ _ _ _ hne⟩

/-- Claim C4: in the counters-only and counters+fcounters builders (whose
constructions are total in this embedding, mirroring that the Python loops
raise nothing), when two records share the same `(rank, id)` identity and
the second is the last such record, the stored table(s) for that identity
are the later record's — the later record silently overwrites the earlier
one. -/
theorem C4_later_record_overwrites {α : Type}
    (l1 l2 l3 : List (CntRecord α)) (r1 r2 : CntRecord α)
    (m1 m2 m3 : List (FCntRecord α)) (s1 s2 : FCntRecord α)
    (hid : (r1.rank, r1.id) = (r2.rank, r2.id))
    (hlast : ∀ r ∈ l3, (r.rank, r.id) ≠ (r2.rank, r2.id))
    (hids : (s1.rank, s1.id) = (s2.rank, s2.id))
    (hlasts : ∀ r ∈ m3, (r.rank, r.id) ≠ (s2.rank, s2.id)) :
    (counters_coll.init (l1 ++ r1 :: l2 ++ r2 :: l3)).counters.get? (r2.rank, r2.id)
        = some r2.counters ∧
    (fcounters_coll.init (m1 ++ s1 :: m2 ++ s2 :: m3)).counters.get? (s2.rank, s2.id)
        = some s2.counters ∧
    (fcounters_coll.init (m1 ++ s1 :: m2 ++ s2 :: m3)).fcounters.get? (s2.rank, s2.id)
        = some s2.fcounters := by
  refine ⟨?_, ?_, ?_⟩
  · rw [counters_coll.init, List.foldl_append, List.foldl_cons, List.foldl_append,
      List.foldl_cons, counters_foldl_frame l3 _ _ hlast]
    exact PyDict.get?_insert_self _ _ _
  · rw [fcounters_coll.init, List.foldl_append, List.foldl_cons, List.foldl_append,
      List.foldl_cons, (fcounters_foldl_frame m3 _ _ hlasts).1]
    exact PyDict.get?_insert_self _ _ _
  · rw [fcounters_coll.init, List.foldl_append, List.foldl_cons, List.foldl_append,
      List.foldl_cons, (fcounters_foldl_frame m3 _ _ hlasts).2]
    exact PyDict.get?_insert_self _ _ _

/-- Witness for C4 at concrete colliding records: in both builders the
later record's tables win. -/
theorem C4_witness :
    (counters_coll.init ([⟨0, 7, 5⟩, ⟨0, 7, 9⟩] : List (CntRecord Nat))).counters.get? (0, 7)
        = some 9 ∧
    (fcounters_coll.init ([⟨0, 7, 1, 2⟩, ⟨0, 7, 3, 4⟩] : List (FCntRecord Nat))).counters.get?
        (0, 7) = some 3 ∧
    (fcounters_coll.init ([⟨0, 7, 1, 2⟩, ⟨0, 7, 3, 4⟩] : List (FCntRecord Nat))).fcounters.get?
        (0, 7) = some 4 :=
  C4_later_record_overwrites [] [] [] ⟨0, 7, 5⟩ ⟨0, 7, 9⟩ [] [] [] ⟨0, 7, 1, 2⟩ ⟨0, 7, 3, 4⟩
    (by decide) (by decide) (by decide) (by decide)

/-- Claim C5: exporting a counters-only collection for module "LUSTRE" holding
one record with rank 0 and id 7 under batch prefix "u1_42" writes exactly
one file, `LUSTRE_u1_42_0_7_counters.parquet`; the counters+fcounters
export for the same record and prefix writes exactly two files, the second
being `LUSTRE_u1_42_0_7_fcounters.parquet`. -/
theorem C5_export_file_names {α : Type} (t f : α) (directory : String) :
    (counters_coll.init [({ rank := 0, id := 7, counters := t } : CntRecord α)]).export_parquet
        "LUSTRE" directory "u1_42" =
      [(directory, "LUSTRE_u1_42_0_7_counters.parquet")] ∧
    (fcounters_coll.init
        [({ rank := 0, id := 7, counters := t, fcounters := f } : FCntRecord α)]).export_parquet
        "LUSTRE" directory "u1_42" =
      [(directory, "LUSTRE_u1_42_0_7_counters.parquet"),
       (directory, "LUSTRE_u1_42_0_7_fcounters.parquet")] := by
  constructor <;> rfl

/-- Claim C6: the directory scan returns exactly the regular-file entries whose
`splitext` extension is exactly `.darshan` (so `.darshan_partial` and other
extensions are excluded), and on the concrete listing
`{a.darshan, b.darshan_partial, c.txt}` it returns exactly `[a.darshan]`. -/
theorem C6_scan_keeps_only_darshan (entries : List DirEntry) :
    (∀ f, f ∈ collect_logfiles entries ↔
      ∃ e ∈ entries, e.name = f ∧ e.isFile = true ∧ (splitext e.name).2 = ".darshan") ∧
    collect_logfiles
        [{ name := "a.darshan", isFile := true },
         { name := "b.darshan_partial", isFile := true },
         { name := "c.txt", isFile := true }] = ["a.darshan"] := by
  constructor
  · intro f
    constructor
    · intro hf
      simp only [collect_logfiles, List.mem_filter, List.mem_map, decide_eq_true_eq] at hf
      obtain ⟨⟨e, ⟨he, hfile⟩, hname⟩, hext⟩ := hf
      exact ⟨e, he, hname, hfile, by rw [hname]; exact hext⟩
    · rintro ⟨e, he, hname, hfile, hext⟩
      simp only [collect_logfiles, List.mem_filter, List.mem_map, decide_eq_true_eq]
      refine ⟨⟨e, ⟨he, hfile⟩, hname⟩, ?_⟩
      rw [← hname]
      exact hext
  · decide

theorem read_log_finish_get_loaded {α : Type} (o : PyDict String (OutputVal α))
    (lm : List String) :
    (read_log_finish o lm).get? "loaded_modules" =
      some (OutputVal.loadedModules lm) :=
  PyDict.get?_insert_self _ _ _

theorem read_log_finish_get_other {α : Type} (o : PyDict String (OutputVal α))
    (lm : List String) (k : String) (h1 : k ≠ "report") (h2 : k ≠ "loaded_modules") :
    (read_log_finish o lm).get? k = o.get? k := by
  unfold read_log_finish
  rw [PyDict.get?_insert_ne _ _ _ _ h2, PyDict.get?_insert_ne _ _ _ _ h1]

theorem read_log_mod_step_get_ne {α : Type} (cond : Bool) (k : String) (v : OutputVal α)
    (s : PyDict String (OutputVal α) × List String) (k' : String) (h : k' ≠ k) :
    (read_log_mod_step cond k v s).1.get? k' = s.1.get? k' := by
  cases cond
  · rfl
  · exact PyDict.get?_insert_ne _ _ _ _ h

theorem read_log_mod_step_inv {α : Type} (cond : Bool) (k : String) (v : OutputVal α)
    (s : PyDict String (OutputVal α) × List String) (L : List String)
    (hsub : ∀ m ∈ s.2, m ∈ L) (hk : k ∉ L)
    (hinv : ∀ m ∈ s.2, ∃ w, s.1.get? m = some w ∧
      ∀ directory pfx, (OutputVal.exportFiles w directory pfx).isSome = true)
    (hv : ∀ directory pfx, (OutputVal.exportFiles v directory pfx).isSome = true) :
    (∀ m ∈ (read_log_mod_step cond k v s).2, m ∈ L ++ [k]) ∧
    (∀ m ∈ (read_log_mod_step cond k v s).2,
      ∃ w, (read_log_mod_step cond k v s).1.get? m = some w ∧
        ∀ directory pfx, (OutputVal.exportFiles w directory pfx).isSome = true) := by
  cases cond
  · exact ⟨fun m hm => List.mem_append.mpr (Or.inl (hsub m hm)), hinv⟩
  · constructor
    · intro m hm
      rcases List.mem_append.mp hm with hm | hm
      · exact List.mem_append.mpr (Or.inl (hsub m hm))
      · exact List.mem_append.mpr (Or.inr hm)
    · intro m hm
      rcases List.mem_append.mp hm with hm | hm
      · obtain ⟨w, hw, hwe⟩ := hinv m hm
        refine ⟨w, ?_, hwe⟩
        show (s.1.insert k v).get? m = some w
        rw [PyDict.get?_insert_ne _ _ _ _ (fun hc => hk (by rw [← hc]; exact hsub m hm))]
        exact hw
      · rw [List.mem_singleton] at hm
        subst hm
        exact ⟨v, PyDict.get?_insert_self _ _ _, hv⟩

theorem read_log_ok_inv {α : Type} (input : ReportInput α)
    (d : PyDict String (OutputVal α)) (h : read_log input = .ok d) :
    ∃ lm, d.get? "loaded_modules" = some (OutputVal.loadedModules lm) ∧
      (∀ m ∈ lm, m ∈ ["POSIX_coll", "LUSTRE_coll", "STDIO_coll", "DXT_POSIX_coll_object"]) ∧
      (∀ m ∈ lm, ∃ v, d.get? m = some v ∧
        ∀ directory pfx, (OutputVal.exportFiles v directory pfx).isSome = true) := by
  simp only [read_log] at h
  have h3 := read_log_mod_step_inv (input.modules.contains "POSIX") "POSIX_coll"
    (OutputVal.posix (fcounters_coll.init input.posixRecords))
    ((PyDict.empty.insert "metadata" (OutputVal.meta input.metadata)).insert "modules"
      (OutputVal.modules input.modules), ([] : List String)) []
    (by simp) (by simp) (by simp) (fun _ _ => rfl)
  have h4 := read_log_mod_step_inv (input.modules.contains "LUSTRE") "LUSTRE_coll"
    (OutputVal.lustre (counters_coll.init input.lustreRecords)) _ _
    h3.1 (by decide) h3.2 (fun _ _ => rfl)
  have h5 := read_log_mod_step_inv (input.modules.contains "STDIO") "STDIO_coll"
    (OutputVal.stdio (fcounters_coll.init input.stdioRecords)) _ _
    h4.1 (by decide) h4.2 (fun _ _ => rfl)
  have hns : ∀ m ∈ ["POSIX_coll", "LUSTRE_coll", "STDIO_coll", "DXT_POSIX_coll_object"],
      m ≠ "report" ∧ m ≠ "loaded_modules" := by decide
  by_cases hD : input.modules.contains "DXT_POSIX" = true
  · rw [if_pos hD] at h
    split at h
    · simp at h
    · rename_i c hdxt
      have h6 := read_log_mod_step_inv true "DXT_POSIX_coll_object" (OutputVal.dxt c) _ _
        h5.1 (by decide) h5.2 (fun _ _ => rfl)
      injection h with h
      subst h
      refine ⟨_, read_log_finish_get_loaded _ _, fun m hm => ?_, fun m hm => ?_⟩
      · simpa using h6.1 m hm
      · obtain ⟨v, hv, hve⟩ := h6.2 m hm
        have hn := hns m (by simpa using h6.1 m hm)
        refine ⟨v, ?_, hve⟩
        rw [read_log_finish_get_other _ _ m hn.1 hn.2]
        exact hv
  · rw [if_neg hD] at h
    injection h with h
    subst h
    refine ⟨_, read_log_finish_get_loaded _ _, fun m hm => ?_, fun m hm => ?_⟩
    · have := h5.1 m hm
      simp at this ⊢
      tauto
    · obtain ⟨v, hv, hve⟩ := h5.2 m hm
      have hmem : m ∈ ["POSIX_coll", "LUSTRE_coll", "STDIO_coll", "DXT_POSIX_coll_object"] := by
        have := h5.1 m hm
        simp at this ⊢
        tauto
      have hn := hns m hmem
      refine ⟨v, ?_, hve⟩
      rw [read_log_finish_get_other _ _ m hn.1 hn.2]
      exact hv

theorem read_log_ok_absent_key {α : Type} (input : ReportInput α)
    (d : PyDict String (OutputVal α)) (h : read_log input = .ok d) (k : String)
    (h1 : k ≠ "metadata") (h2 : k ≠ "modules") (h3 : k ≠ "POSIX_coll")
    (h4 : k ≠ "LUSTRE_coll") (h5 : k ≠ "STDIO_coll") (h6 : k ≠ "DXT_POSIX_coll_object")
    (h7 : k ≠ "report") (h8 : k ≠ "loaded_modules") :
    d.get? k = none := by
  simp only [read_log] at h
  by_cases hD : input.modules.contains "DXT_POSIX" = true
  · rw [if_pos hD] at h
    split at h
    · simp at h
    · injection h with h
      subst h
      rw [read_log_finish_get_other _ _ k h7 h8,
        read_log_mod_step_get_ne _ _ _ _ _ h6,
        read_log_mod_step_get_ne _ _ _ _ _ h5,
        read_log_mod_step_get_ne _ _ _ _ _ h4,
        read_log_mod_step_get_ne _ _ _ _ _ h3,
        PyDict.get?_insert_ne _ _ _ _ h2,
        PyDict.get?_insert_ne _ _ _ _ h1]
      rfl
  · rw [if_neg hD] at h
    injection h with h
    subst h
    rw [read_log_finish_get_other _ _ k h7 h8,
      read_log_mod_step_get_ne _ _ _ _ _ h5,
      read_log_mod_step_get_ne _ _ _ _ _ h4,
      read_log_mod_step_get_ne _ _ _ _ _ h3,
      PyDict.get?_insert_ne _ _ _ _ h2,
      PyDict.get?_insert_ne _ _ _ _ h1]
    rfl

theorem read_log_ok_dxt {α : Type} (input : ReportInput α)
    (d : PyDict String (OutputVal α)) (h : read_log input = .ok d) :
    (input.modules.contains "DXT_POSIX" = true →
      ∃ c, DXT_POSIX_coll.init input.dxtRecords = .ok c ∧
        d.get? "DXT_POSIX_coll_object" = some (OutputVal.dxt c)) ∧
    (input.modules.contains "DXT_POSIX" = false →
      d.get? "DXT_POSIX_coll_object" = none) := by
  simp only [read_log] at h
  by_cases hD : input.modules.contains "DXT_POSIX" = true
  · rw [if_pos hD] at h
    split at h
    · simp at h
    · rename_i c hdxt
      injection h with h
      subst h
      constructor
      · intro _
        refine ⟨c, hdxt, ?_⟩
        rw [read_log_finish_get_other _ _ _ (by decide) (by decide)]
        exact PyDict.get?_insert_self _ _ _
      · intro hc
        rw [hD] at hc
        exact absurd hc (by decide)
  · constructor
    · intro hc
      exact absurd hc hD
    · intro _
      rw [if_neg hD] at h
      injection h with h
      subst h
      rw [read_log_finish_get_other _ _ _ (by decide) (by decide),
        read_log_mod_step_get_ne _ _ _ _ _ (by decide),
        read_log_mod_step_get_ne _ _ _ _ _ (by decide),
        read_log_mod_step_get_ne _ _ _ _ _ (by decide),
        PyDict.get?_insert_ne _ _ _ _ (by decide),
        PyDict.get?_insert_ne _ _ _ _ (by decide)]
      rfl

/-- Counterexample to C2 as stated: reading a trace whose module list
contains DXT_POSIX loads it into the typed collection `DXT_POSIX_coll`,
stores it under the key `"DXT_POSIX_coll_object"`, and lists that key in
`loaded_modules` — so the DXT family is not "never loaded". -/
theorem C2_counterexample :
    (read_log sampleDxtInput).toOption.bind (fun d => d.get? "DXT_POSIX_coll_object") =
      some (OutputVal.dxt ⟨[⟨1, 0, "h", 7, 5⟩], ⟨[(1, 10)]⟩, ⟨[(1, 20)]⟩⟩) ∧
    (read_log sampleDxtInput).toOption.bind (fun d => d.get? "loaded_modules") =
      some (OutputVal.loadedModules ["DXT_POSIX_coll_object"]) := by
  constructor <;> rfl

/-- Claim C2 (amended): for every trace file read by `read_log`, the HEATMAP
module is never loaded (its branch is commented out in the source), and the
MPI-IO / DXT_MPIIO records, though read and printed, are never captured
into the result dict; DXT_POSIX, however, IS loaded into the typed
`DXT_POSIX_coll` collection whenever present. -/
theorem C2_heatmap_never_loaded {α : Type} (input : ReportInput α)
    (d : PyDict String (OutputVal α)) (h : read_log input = .ok d) :
    d.get? "HEATMAP" = none ∧ d.get? "MPI-IO" = none ∧ d.get? "DXT_MPIIO" = none ∧
    (input.modules.contains "DXT_POSIX" = true →
      ∃ c, DXT_POSIX_coll.init input.dxtRecords = .ok c ∧
        d.get? "DXT_POSIX_coll_object" = some (OutputVal.dxt c)) ∧
    (input.modules.contains "DXT_POSIX" = false →
      d.get? "DXT_POSIX_coll_object" = none) :=
  ⟨read_log_ok_absent_key input d h "HEATMAP" (by decide) (by decide) (by decide) (by decide)
      (by decide) (by decide) (by decide) (by decide),
   read_log_ok_absent_key input d h "MPI-IO" (by decide) (by decide) (by decide) (by decide)
      (by decide) (by decide) (by decide) (by decide),
   read_log_ok_absent_key input d h "DXT_MPIIO" (by decide) (by decide) (by decide) (by decide)
      (by decide) (by decide) (by decide) (by decide),
   (read_log_ok_dxt input d h).1, (read_log_ok_dxt input d h).2⟩

/-- Witness for the amended C2 at a concrete LUSTRE-only trace: no HEATMAP,
MPI-IO, DXT_MPIIO or DXT_POSIX entry appears in the result. -/
theorem C2_witness :
    ((read_log (sampleInput "ior")).toOption.bind fun d => d.get? "HEATMAP") = none ∧
    ((read_log (sampleInput "ior")).toOption.bind fun d => d.get? "MPI-IO") = none ∧
    ((read_log (sampleInput "ior")).toOption.bind fun d => d.get? "DXT_POSIX_coll_object") =
      none := by
  have hrl : read_log (sampleInput "ior") =
      .ok ⟨[("metadata", OutputVal.meta { job := sampleJob, exe := "ior" }),
        ("modules", OutputVal.modules ["LUSTRE"]),
        ("LUSTRE_coll", OutputVal.lustre { metadata := [(0, 7)], counters := ⟨[((0, 7), 5)]⟩ }),
        ("report", OutputVal.report),
        ("loaded_modules", OutputVal.loadedModules ["LUSTRE_coll"])]⟩ := rfl
  have h := C2_heatmap_never_loaded (sampleInput "ior") _ hrl
  rw [hrl]
  exact ⟨h.1, h.2.1, h.2.2.2.2 rfl⟩

/-- Claim C10: every string in the `loaded_modules` list of a successful
`read_log` result is a key of that same result dict whose value provides
`export_parquet` (so the Archive Writer's per-module loop never misses a
key), and the print-only MPI-IO and DXT_MPIIO modules are never in
`loaded_modules`. -/
theorem C10_loaded_modules_sound {α : Type} (input : ReportInput α)
    (d : PyDict String (OutputVal α)) (lm : List String)
    (h : read_log input = .ok d)
    (hlm : d.get? "loaded_modules" = some (OutputVal.loadedModules lm)) :
    (∀ m ∈ lm, ∃ v, d.get? m = some v ∧
      ∀ directory pfx, (OutputVal.exportFiles v directory pfx).isSome = true) ∧
    "MPI-IO" ∉ lm ∧ "DXT_MPIIO" ∉ lm := by
  obtain ⟨lm2, hlm2, hsub, hinv⟩ := read_log_ok_inv input d h
  rw [hlm2] at hlm
  injection hlm with hlm
  injection hlm with hlm
  subst hlm
  refine ⟨hinv, ?_, ?_⟩
  · intro hc
    have := hsub _ hc
    simp at this
  · intro hc
    have := hsub _ hc
    simp at this

/-- Witness for C10 at a concrete LUSTRE-only trace (whose
`loaded_modules` is `["LUSTRE_coll"]`): the print-only modules are not in
the list. -/
theorem C10_witness :
    "MPI-IO" ∉ (["LUSTRE_coll"] : List String) ∧
    "DXT_MPIIO" ∉ (["LUSTRE_coll"] : List String) := by
  have h := C10_loaded_modules_sound (sampleInput "ior")
    ⟨[("metadata", OutputVal.meta { job := sampleJob, exe := "ior" }),
      ("modules", OutputVal.modules ["LUSTRE"]),
      ("LUSTRE_coll", OutputVal.lustre { metadata := [(0, 7)], counters := ⟨[((0, 7), 5)]⟩ }),
      ("report", OutputVal.report),
      ("loaded_modules", OutputVal.loadedModules ["LUSTRE_coll"])]⟩
    ["LUSTRE_coll"] rfl rfl
  exact ⟨h.2.1, h.2.2⟩

/-- Claim C1 evaluated at the failing input: two trace files whose metadata yield
the same generated name "1_42" are aggregated WITHOUT any duplicate-name
error, and the batch silently keeps only the second file's job (its "exe2"
executable is the one in the single metadata row). The plain dict
assignment `collected_report_data[tmp_name] = tmp_report_data` in
`aggregate_darshan` overwrites the first job, so the defensive duplicate
check in `move_metadata_into_dataframe` (which only ever sees the already
de-duplicated dict keys against an initially empty dataframe) can never
fire for a cross-file collision. -/
theorem C1_duplicate_name_not_fatal :
    aggregate_darshan [sampleInput "exe1", sampleInput "exe2"] "parquet/" PathState.absent =
      .ok (⟨[("1_42",
          [MetaVal.int 10, MetaVal.int 1, MetaVal.int 2, MetaVal.int 3, MetaVal.int 4,
           MetaVal.int 42, MetaVal.int 1, MetaVal.str "3.41", MetaVal.str "lib_ver=3.4.4",
           MetaVal.int 8, MetaVal.str "exe2"])]⟩,
        [FileOp.mkdir "parquet/", FileOp.write "parquet/" "metadata.parquet",
         FileOp.write "parquet/" "LUSTRE_1_42_0_7_counters.parquet"]) := by
  rfl

theorem move_metadata_go_cons_eq {α : Type}
    (report_data : PyDict String (PyDict String (OutputVal α)))
    (name : String) (rest : List String) (df : PyDict String (List MetaVal))
    (report : PyDict String (OutputVal α)) (md : Metadata) (values : List MetaVal)
    (hrep : report_data.get? name = some report)
    (hmd : report.get? "metadata" = some (OutputVal.meta md))
    (hjv : report_job_values md = some values)
    (hfresh : df.hasKey name = false) :
    move_metadata_go report_data (name :: rest) df =
      move_metadata_go report_data rest (df.insert name values) := by
  simp only [move_metadata_go, hrep, hmd, hjv, hfresh, Bool.false_eq_true, if_false]

theorem move_metadata_go_ok {α : Type}
    (report_data : PyDict String (PyDict String (OutputVal α))) :
    ∀ (names : List String) (df : PyDict String (List MetaVal)),
      names.Nodup →
      (∀ n ∈ names, df.hasKey n = false) →
      (∀ n ∈ names, ∃ report md jobvals,
        report_data.get? n = some report ∧
        report.get? "metadata" = some (OutputVal.meta md) ∧
        (mdf_header.dropLast.mapM fun val => md.job.get? val) = some jobvals) →
      ∃ df2, move_metadata_go report_data names df = .ok df2 ∧
        df2.keys = df.keys ++ names ∧
        (∀ n, n ∉ names → df2.get? n = df.get? n) ∧
        (∀ n ∈ names, ∀ report md jobvals,
          report_data.get? n = some report →
          report.get? "metadata" = some (OutputVal.meta md) →
          (mdf_header.dropLast.mapM fun val => md.job.get? val) = some jobvals →
          df2.get? n = some (jobvals ++ [MetaVal.str md.exe])) := by
  intro names
  induction names with
  | nil =>
    intro df _ _ _
    exact ⟨df, rfl, by simp, fun n _ => rfl, by simp⟩
  | cons name rest ih =>
    intro df hnd hfresh hwf
    rw [List.nodup_cons] at hnd
    obtain ⟨hnotin, hndr⟩ := hnd
    obtain ⟨report, md, jobvals, hrep, hmd, hjv⟩ := hwf name (List.mem_cons_self _ _)
    have hfname : df.hasKey name = false := hfresh name (List.mem_cons_self _ _)
    have hjv2 : report_job_values md = some (jobvals ++ [MetaVal.str md.exe]) := by
      unfold report_job_values
      rw [hjv]
      rfl
    have hstep := move_metadata_go_cons_eq report_data name rest df report md
      (jobvals ++ [MetaVal.str md.exe]) hrep hmd hjv2 hfname
    have hfresh2 : ∀ n ∈ rest,
        (df.insert name (jobvals ++ [MetaVal.str md.exe])).hasKey n = false := by
      intro n hn
      rw [PyDict.hasKey_insert]
      have h1 := hfresh n (List.mem_cons_of_mem _ hn)
      have h2 : n ≠ name := fun hc => hnotin (hc ▸ hn)
      simp [h1, h2]
    obtain ⟨df2, hok, hkeys, hframe, hmem⟩ :=
      ih (df.insert name (jobvals ++ [MetaVal.str md.exe])) hndr hfresh2
        (fun n hn => hwf n (List.mem_cons_of_mem _ hn))
    refine ⟨df2, hstep.trans hok, ?_, ?_, ?_⟩
    · rw [hkeys, PyDict.keys_insert, hfname]
      simp
    · intro n hn
      simp only [List.mem_cons, not_or] at hn
      rw [hframe n hn.2, PyDict.get?_insert_ne _ _ _ _ hn.1]
    · intro n hn report2 md2 jobvals2 hrep2 hmd2 hjv3
      rcases List.mem_cons.mp hn with hn | hn
      · subst hn
        rw [hrep] at hrep2
        injection hrep2 with e
        subst e
        rw [hmd] at hmd2
        injection hmd2 with e
        injection e with e
        subst e
        rw [hjv] at hjv3
        injection hjv3 with e
        subst e
        rw [hframe n hnotin]
        exact PyDict.get?_insert_self _ _ _
      · exact hmem n hn report2 md2 jobvals2 hrep2 hmd2 hjv3

/-- Claim C7: for a batch of opened job records keyed by generated name (whose
names are distinct and whose metadata has every `mdf_header` job field),
the Metadata Table Builder succeeds with exactly one row per job keyed by
the generated name; each row is the job-sub-structure values of the
`mdf_header` columns except `exe`, followed by the sibling `exe` string. -/
theorem C7_metadata_table {α : Type}
    (report_data : PyDict String (PyDict String (OutputVal α)))
    (hnd : report_data.keys.Nodup)
    (hwf : ∀ n ∈ report_data.keys, ∃ report md jobvals,
      report_data.get? n = some report ∧
      report.get? "metadata" = some (OutputVal.meta md) ∧
      (mdf_header.dropLast.mapM fun val => md.job.get? val) = some jobvals) :
    ∃ df, move_metadata_into_dataframe report_data = .ok df ∧
      df.keys = report_data.keys ∧
      (∀ n ∈ report_data.keys, ∀ report md jobvals,
        report_data.get? n = some report →
        report.get? "metadata" = some (OutputVal.meta md) →
        (mdf_header.dropLast.mapM fun val => md.job.get? val) = some jobvals →
        df.get? n = some (jobvals ++ [MetaVal.str md.exe])) := by
  obtain ⟨df2, hok, hkeys, -, hmem⟩ := move_metadata_go_ok report_data report_data.keys
    PyDict.empty hnd (fun n _ => rfl) hwf
  exact ⟨df2, hok, by simpa using hkeys, hmem⟩

/-- Witness for C7 at a one-job batch keyed "1_42": the builder succeeds
and the single row holds the ten job fields then the exe string. -/
theorem C7_witness :
    ((move_metadata_into_dataframe
        (⟨[("1_42",
          ⟨[("metadata", OutputVal.meta { job := sampleJob, exe := "ior" }),
            ("modules", OutputVal.modules ["LUSTRE"]),
            ("LUSTRE_coll",
              OutputVal.lustre { metadata := [(0, 7)], counters := ⟨[((0, 7), 5)]⟩ }),
            ("report", OutputVal.report),
            ("loaded_modules", OutputVal.loadedModules ["LUSTRE_coll"])]⟩)]⟩ :
          PyDict String (PyDict String (OutputVal Nat)))).map
      fun df => df.get? "1_42") =
      .ok (some [MetaVal.int 10, MetaVal.int 1, MetaVal.int 2, MetaVal.int 3, MetaVal.int 4,
        MetaVal.int 42, MetaVal.int 1, MetaVal.str "3.41", MetaVal.str "lib_ver=3.4.4",
        MetaVal.int 8, MetaVal.str "ior"]) := by
  obtain ⟨df, hok, -, hmem⟩ := C7_metadata_table
    (⟨[("1_42",
      ⟨[("metadata", OutputVal.meta { job := sampleJob, exe := "ior" }),
        ("modules", OutputVal.modules ["LUSTRE"]),
        ("LUSTRE_coll",
          OutputVal.lustre { metadata := [(0, 7)], counters := ⟨[((0, 7), 5)]⟩ }),
        ("report", OutputVal.report),
        ("loaded_modules", OutputVal.loadedModules ["LUSTRE_coll"])]⟩)]⟩ :
      PyDict String (PyDict String (OutputVal Nat)))
    (by decide)
    (by
      intro n hn
      have hn2 : n = "1_42" := by simpa [PyDict.keys] using hn
      subst hn2
      exact ⟨_, { job := sampleJob, exe := "ior" },
        [MetaVal.int 10, MetaVal.int 1, MetaVal.int 2, MetaVal.int 3, MetaVal.int 4,
         MetaVal.int 42, MetaVal.int 1, MetaVal.str "3.41", MetaVal.str "lib_ver=3.4.4",
         MetaVal.int 8], rfl, rfl, rfl⟩)
  rw [hok]
  have := hmem "1_42" (by simp [PyDict.keys]) _ { job := sampleJob, exe := "ior" }
    [MetaVal.int 10, MetaVal.int 1, MetaVal.int 2, MetaVal.int 3, MetaVal.int 4,
     MetaVal.int 42, MetaVal.int 1, MetaVal.str "3.41", MetaVal.str "lib_ver=3.4.4",
     MetaVal.int 8] rfl rfl rfl
  exact congrArg Except.ok this

theorem export_modules_go_mem {α : Type} (report : PyDict String (OutputVal α))
    (output_dir report_name : String) :
    ∀ (lm : List String) (ops : List FileOp),
      export_modules_go report output_dir report_name lm = .ok ops →
      ∀ m ∈ lm, ∃ v files, report.get? m = some v ∧
        OutputVal.exportFiles v output_dir report_name = some files ∧
        ∀ f ∈ files, FileOp.write f.1 f.2 ∈ ops := by
  intro lm
  induction lm with
  | nil =>
    intro ops _ m hm
    simp at hm
  | cons mname rest ih =>
    intro ops h m hm
    simp only [export_modules_go] at h
    split at h
    · simp at h
    · rename_i v hv
      split at h
      · simp at h
      · rename_i files hf
        split at h
        · simp at h
        · rename_i ops2 hrest
          injection h with h
          subst h
          rcases List.mem_cons.mp hm with hm | hm
          · subst hm
            exact ⟨v, files, hv, hf, fun f hf2 =>
              List.mem_append.mpr (Or.inl (List.mem_map.mpr ⟨f, hf2, rfl⟩))⟩
          · obtain ⟨v2, files2, hv2, hf2, hmem2⟩ := ih ops2 hrest m hm
            exact ⟨v2, files2, hv2, hf2, fun f hff =>
              List.mem_append.mpr (Or.inr (hmem2 f hff))⟩

theorem export_reports_go_mem {α : Type}
    (report_data : PyDict String (PyDict String (OutputVal α))) (output_dir : String) :
    ∀ (names : List String) (ops : List FileOp),
      export_reports_go report_data output_dir names = .ok ops →
      ∀ n ∈ names, ∀ report lm,
        report_data.get? n = some report →
        report.get? "loaded_modules" = some (OutputVal.loadedModules lm) →
        ∀ m ∈ lm, ∃ v files, report.get? m = some v ∧
          OutputVal.exportFiles v output_dir n = some files ∧
          ∀ f ∈ files, FileOp.write f.1 f.2 ∈ ops := by
  intro names
  induction names with
  | nil =>
    intro ops _ n hn
    simp at hn
  | cons name rest ih =>
    intro ops h n hn report lm hrep hlm m hm
    simp only [export_reports_go] at h
    split at h
    · simp at h
    · rename_i report2 hrep2
      split at h
      · rename_i lm2 hlm2
        split at h
        · simp at h
        · rename_i ops2 hmods
          split at h
          · simp at h
          · rename_i more hmore
            injection h with h
            subst h
            rcases List.mem_cons.mp hn with hn | hn
            · subst hn
              rw [hrep2] at hrep
              injection hrep with e
              subst e
              rw [hlm2] at hlm
              injection hlm with e
              injection e with e
              subst e
              obtain ⟨v, files, hv, hf, hmem⟩ :=
                export_modules_go_mem _ output_dir n _ _ hmods m hm
              exact ⟨v, files, hv, hf, fun f hff =>
                List.mem_append.mpr (Or.inl (hmem f hff))⟩
            · obtain ⟨v, files, hv, hf, hmem⟩ :=
                ih more hmore n hn report lm hrep hlm m hm
              exact ⟨v, files, hv, hf, fun f hff =>
                List.mem_append.mpr (Or.inr (hmem f hff))⟩
      · simp at h

/-- Claim C8: the Archive Writer fails fatally (producing no filesystem effect)
when the output path exists as a non-directory; it creates the directory
first when the path is absent; and in every non-failing run it writes the
metadata table to the fixed name `metadata.parquet` in the output directory
and, for every job record and every module in its `loaded_modules`, emits
that module's export files with the output directory and the job's
generated name (its key in the batch) as batch prefix. -/
theorem C8_write_to_parquet {α : Type}
    (report_data : PyDict String (PyDict String (OutputVal α)))
    (metadata_df : PyDict String (List MetaVal)) (output_dir : String) :
    (write_to_parquet report_data metadata_df output_dir PathState.existsNonDir =
      .error ("Provided directory " ++ output_dir ++
        " exists and is not a directory. Aborting.")) ∧
    (∀ ops, write_to_parquet report_data metadata_df output_dir PathState.absent = .ok ops →
      ops.head? = some (FileOp.mkdir output_dir)) ∧
    (∀ st ops, write_to_parquet report_data metadata_df output_dir st = .ok ops →
      FileOp.write output_dir "metadata.parquet" ∈ ops ∧
      (∀ n report lm, report_data.get? n = some report →
        report.get? "loaded_modules" = some (OutputVal.loadedModules lm) →
        ∀ m ∈ lm, ∃ v files, report.get? m = some v ∧
          OutputVal.exportFiles v output_dir n = some files ∧
          ∀ f ∈ files, FileOp.write f.1 f.2 ∈ ops)) := by
  refine ⟨rfl, ?_, ?_⟩
  · intro ops h
    simp only [write_to_parquet] at h
    split at h
    · simp at h
    · rename_i ops2 hexp
      injection h with h
      subst h
      rfl
  · intro st ops h
    have hkeys : ∀ (n : String) (report : PyDict String (OutputVal α)),
        report_data.get? n = some report → n ∈ report_data.keys := by
      intro n report hrep
      rw [← PyDict.hasKey_iff_mem_keys, ← PyDict.get?_isSome_iff_hasKey, hrep]
      rfl
    cases st with
    | existsNonDir => simp [write_to_parquet] at h
    | isDir =>
      simp only [write_to_parquet] at h
      split at h
      · simp at h
      · rename_i ops2 hexp
        injection h with h
        subst h
        refine ⟨List.mem_append.mpr (Or.inl (List.mem_singleton.mpr rfl)), ?_⟩
        intro n report lm hrep hlm m hm
        obtain ⟨v, files, hv, hf, hmem⟩ := export_reports_go_mem report_data output_dir
          report_data.keys ops2 hexp n (hkeys n report hrep) report lm hrep hlm m hm
        exact ⟨v, files, hv, hf, fun f hff => List.mem_append.mpr (Or.inr (hmem f hff))⟩
    | absent =>
      simp only [write_to_parquet] at h
      split at h
      · simp at h
      · rename_i ops2 hexp
        injection h with h
        subst h
        refine ⟨List.mem_append.mpr (Or.inl (by simp)), ?_⟩
        intro n report lm hrep hlm m hm
        obtain ⟨v, files, hv, hf, hmem⟩ := export_reports_go_mem report_data output_dir
          report_data.keys ops2 hexp n (hkeys n report hrep) report lm hrep hlm m hm
        exact ⟨v, files, hv, hf, fun f hff => List.mem_append.mpr (Or.inr (hmem f hff))⟩

/-- Witness for C8 at a one-job batch with a loaded LUSTRE module: with an
existing output directory the run writes the metadata file and the LUSTRE
export; with an absent output path the first effect is `mkdir`. -/
theorem C8_witness :
    FileOp.write "out" "metadata.parquet" ∈
      ([FileOp.write "out" "metadata.parquet",
        FileOp.write "out" "LUSTRE_1_42_0_7_counters.parquet"] : List FileOp) ∧
    ([FileOp.mkdir "out", FileOp.write "out" "metadata.parquet",
      FileOp.write "out" "LUSTRE_1_42_0_7_counters.parquet"] : List FileOp).head? =
      some (FileOp.mkdir "out") := by
  have h := C8_write_to_parquet
    (⟨[("1_42",
      ⟨[("metadata", OutputVal.meta { job := sampleJob, exe := "ior" }),
        ("modules", OutputVal.modules ["LUSTRE"]),
        ("LUSTRE_coll",
          OutputVal.lustre { metadata := [(0, 7)], counters := ⟨[((0, 7), 5)]⟩ }),
        ("report", OutputVal.report),
        ("loaded_modules", OutputVal.loadedModules ["LUSTRE_coll"])]⟩)]⟩ :
      PyDict String (PyDict String (OutputVal Nat)))
    ⟨[]⟩ "out"
  exact ⟨(h.2.2 PathState.isDir _ rfl).1, h.2.1 _ rfl⟩
